import Mathlib

/-!
Verification development for the dwh-creation-valsur batch-ETL repository.

The definitions below are shallow embeddings of the repository's decision
logic, translated from the Python source:

* `determineLoadingStrategy` — `_determine_loading_strategy` in
  `scripts/quick_database_documenter.py`;
* `analyzeTableForIncrementalLoading` / `analyzeColumnsForIncremental` —
  the classifier in the same file;
* `getIncrementalData`, `extractTableIncremental`, `extractTableSafe`,
  `updateWatermarkEntry`, `saveWatermarksDirect` — the watermark / planner
  logic in `legacy_incremental_batch/extractors/incremental_extractor.py`
  and `batch_extractor.py`;
* `mergeRows`, `replacePartitionRows`, `runAdvancedIngestion` — the
  load-strategy appliers in `dev_environment/bigquery/main.py`.

Timestamps and column values are modelled as `Int` (the source compares
them with the database's native ordering); external I/O (catalog lookup,
staging, warehouse calls) is modelled by explicit oracle parameters.
-/

/-! ### String helpers (Python `in` on lowercase strings) -/

/-- `startsWithChars l n` : the char list `n` is a prefix of `l`. -/
def startsWithChars : List Char → List Char → Bool
  | _, [] => true
  | [], _ :: _ => false
  | a :: as, b :: bs => a == b && startsWithChars as bs

/-- `containsChars l n` : the char list `n` occurs contiguously inside `l`. -/
def containsChars : List Char → List Char → Bool
  | [], n => n.isEmpty
  | a :: as, n => startsWithChars (a :: as) n || containsChars as n

/-- Python's `needle in haystack` on strings. -/
def strContains (haystack needle : String) : Bool :=
  containsChars haystack.toList needle.toList

/-- Python's `str.lower()`. -/
def lowerStr (s : String) : String :=
  s.map Char.toLower

/-- `any(kw in s for kw in kws)`. -/
def matchesAny (s : String) (kws : List String) : Bool :=
  kws.any (fun k => strContains s k)

/-! ### Table Classifier / Strategy Scorer
(`quick_database_documenter.py`) -/

/-- One entry of the classifier's `timestamp_columns` list. -/
structure TsCol where
  column : String
  colType : String
  nullable : Bool
  detectionMethod : String
  matchedPattern : Option String
deriving Repr, DecidableEq

/-- One entry of the classifier's `primary_keys` list. -/
structure PkInfo where
  column : String
  colType : String
  autoIncrement : Bool
deriving Repr, DecidableEq

/-- Result of `_determine_loading_strategy` (the audit-only `reasons` and
`strategy_notes` strings are omitted; nothing reads them back). -/
structure StrategyAnalysis where
  loadingStrategy : String
  confidence : String
  incrementalScore : Int
  recommendedWatermark : Option String
deriving Repr, DecidableEq

def modificationKeywords : List String := ["updated", "modified", "last_modified", "update_time"]

def creationKeywords : List String := ["created", "insert", "create_time"]

def configKeywords : List String := ["config", "tipos", "estados", "categorias"]

def historicalKeywords : List String := ["his", "hist", "log", "audit"]

def transactionKeywords : List String := ["fac", "alb", "ped", "mov"]

/-- Lines 209-237 of `_determine_loading_strategy`: `+50` when timestamp
columns exist, then `recommended_watermark` selection — the first column
matching a modification keyword (`+30`), else the first matching a
creation keyword (`+20`), else the first timestamp column (`+10`).
Returns the accumulated score and the selected watermark column. -/
def timestampStep (score : Int) (timestampCols : List TsCol) : Int × Option String :=
  if timestampCols.isEmpty then (score, none)
  else
    let s := score + 50
    match timestampCols.find? (fun c => matchesAny (lowerStr c.column) modificationKeywords) with
    | some c => (s + 30, some c.column)
    | none =>
      match timestampCols.find? (fun c => matchesAny (lowerStr c.column) creationKeywords) with
      | some c => (s + 20, some c.column)
      | none =>
        match timestampCols.head? with
        | some c => (s + 10, some c.column)
        | none => (s, none)

/-- Lines 239-242: `+25` when any auto-increment column exists. -/
def autoIncrementStep (score : Int) (autoIncrementCols : List String) : Int :=
  if autoIncrementCols.isEmpty then score else score + 25

/-- Lines 244-253: `+15` for a single primary key, `+5` for a composite
key, `-20` for none. -/
def primaryKeyStep (score : Int) (primaryKeys : List PkInfo) : Int :=
  if primaryKeys.length == 1 then score + 15
  else if primaryKeys.length > 1 then score + 5
  else score - 20

/-- Lines 255-271: table-name heuristics on the lowercase name — `-15`
for configuration/lookup names, `+20` for historical/audit names, `+15`
for transactional names; independent checks. -/
def tableNameStep (score : Int) (tableName : String) : Int :=
  let tableLower := lowerStr tableName
  let s1 := if matchesAny tableLower configKeywords then score - 15 else score
  let s2 := if matchesAny tableLower historicalKeywords then s1 + 20 else s1
  if matchesAny tableLower transactionKeywords then s2 + 15 else s2

/-- Lines 273-294: the final threshold mapping from the accumulated score
to the strategy / confidence labels. -/
def finalizeStrategy (score : Int) (watermark : Option String) : StrategyAnalysis :=
  if score ≥ 70 then ⟨"INCREMENTAL_PREFERRED", "HIGH", score, watermark⟩
  else if score ≥ 40 then ⟨"INCREMENTAL_POSSIBLE", "MEDIUM", score, watermark⟩
  else if score ≥ 20 then ⟨"INCREMENTAL_CHALLENGING", "MEDIUM", score, watermark⟩
  else ⟨"FULL_REPLACE", "HIGH", score, watermark⟩

/-- Shallow embedding of `_determine_loading_strategy` (lines 198-294 of
`quick_database_documenter.py`): the sequential `incremental_score`
accumulation, block by block, then the threshold mapping. -/
def determineLoadingStrategy (tableName : String) (timestampCols : List TsCol)
    (primaryKeys : List PkInfo) (autoIncrementCols : List String) : StrategyAnalysis :=
  let step1 := timestampStep 0 timestampCols
  finalizeStrategy
    (tableNameStep (primaryKeyStep (autoIncrementStep step1.1 autoIncrementCols) primaryKeys)
      tableName)
    step1.2

/-! Spec-side mirror of the scorer, written from the words of spec §4.3:
independent additive contributions, then thresholds. Used only to compare
with `determineLoadingStrategy`. -/

/-- Spec §4.3 watermark selection: the modification-named column (+30),
else the creation-named column (+20), else the first timestamp column
(+10). Returns the chosen column and its bonus. -/
def specSelectWatermark (timestampCols : List TsCol) : Option String × Int :=
  if timestampCols.isEmpty then (none, 0)
  else
    match timestampCols.find? (fun c => matchesAny (lowerStr c.column) modificationKeywords) with
    | some c => (some c.column, 30)
    | none =>
      match timestampCols.find? (fun c => matchesAny (lowerStr c.column) creationKeywords) with
      | some c => (some c.column, 20)
      | none =>
        match timestampCols.head? with
        | some c => (some c.column, 10)
        | none => (none, 0)

/-- Spec §4.3 score: the sum of the documented independent contributions. -/
def specScore (tableName : String) (timestampCols : List TsCol)
    (primaryKeys : List PkInfo) (autoIncrementCols : List String) : Int :=
  (if timestampCols.isEmpty then 0 else 50)
  + (specSelectWatermark timestampCols).2
  + (if autoIncrementCols.isEmpty then 0 else 25)
  + (if primaryKeys.length == 1 then 15
     else if primaryKeys.length > 1 then 5 else -20)
  + (if matchesAny (lowerStr tableName) configKeywords then -15 else 0)
  + (if matchesAny (lowerStr tableName) historicalKeywords then 20 else 0)
  + (if matchesAny (lowerStr tableName) transactionKeywords then 15 else 0)

/-- Spec §4.3 threshold mapping. -/
def specStrategyOfScore (score : Int) : String :=
  if score ≥ 70 then "INCREMENTAL_PREFERRED"
  else if score ≥ 40 then "INCREMENTAL_POSSIBLE"
  else if score ≥ 20 then "INCREMENTAL_CHALLENGING"
  else "FULL_REPLACE"

/-- Spec §4.3 confidence label: HIGH for score ≥ 70 or the full-replace
branch (score < 20), MEDIUM otherwise. -/
def specConfidenceOfScore (score : Int) : String :=
  if score ≥ 70 ∨ score < 20 then "HIGH" else "MEDIUM"

/-- The decision as described by spec §4.3. -/
def specDecision (tableName : String) (timestampCols : List TsCol)
    (primaryKeys : List PkInfo) (autoIncrementCols : List String) : StrategyAnalysis :=
  let s := specScore tableName timestampCols primaryKeys autoIncrementCols
  ⟨specStrategyOfScore s, specConfidenceOfScore s, s,
    (specSelectWatermark timestampCols).1⟩

/-- One `INFORMATION_SCHEMA.COLUMNS` row as fetched by
`analyze_table_for_incremental_loading` (the unused comment field is
dropped). -/
structure ColumnInfo where
  columnName : String
  dataType : String
  isNullable : String
  columnDefault : Option String
  columnType : String
  columnKey : String
  extra : String
deriving Repr, DecidableEq

/-- Catalog data consumed by the classifier: the row estimate from
`SHOW TABLE STATUS` and the column metadata rows. -/
structure TableSchema where
  rowCount : Nat
  columns : List ColumnInfo
deriving Repr, DecidableEq

/-- The classifier's 24-entry `timestamp_patterns` list. -/
def timestampPatterns : List String :=
  ["created_at", "updated_at", "modified_at", "last_modified", "last_update",
   "created_date", "updated_date", "modification_date", "modify_date",
   "fecha_modificacion", "fecha_creacion", "fecha_actualizacion",
   "timestamp", "date_created", "date_modified", "date_updated",
   "create_time", "update_time", "mod_time", "change_date",
   "insert_date", "insert_time", "changed_on", "modified_on"]

/-- The column loop of `_analyze_columns_for_incremental`: collect primary
keys, auto-increment columns and timestamp columns (type-based detection
first, then name-pattern detection deduplicated by column name, keeping
the type-based entry). The `unique_columns` / `indexed_columns` side
lists are collected by the source but never consumed; they are omitted. -/
def collectColumnInfo (columns : List ColumnInfo) :
    List TsCol × List PkInfo × List String :=
  columns.foldl
    (fun acc col =>
      let ts := acc.1
      let pks := acc.2.1
      let autos := acc.2.2
      let isAuto := strContains (lowerStr col.extra) "auto_increment"
      let pks :=
        if col.columnKey == "PRI" then
          pks ++ [⟨col.columnName, col.columnType, isAuto⟩] else pks
      let autos := if isAuto then autos ++ [col.columnName] else autos
      let ts :=
        if ["timestamp", "datetime", "date"].contains (lowerStr col.dataType) then
          ts ++ [⟨col.columnName, col.columnType, col.isNullable == "YES",
                  "type_based", none⟩]
        else ts
      let ts :=
        match timestampPatterns.find? (fun p => strContains (lowerStr col.columnName) p) with
        | some p =>
          if ts.any (fun tc => tc.column == col.columnName) then ts
          else ts ++ [⟨col.columnName, col.columnType, col.isNullable == "YES",
                       "name_pattern", some p⟩]
        | none => ts
      (ts, pks, autos))
    ([], [], [])

/-- The classifier's per-table output. Fields that only one branch of the
source populates are `Option`; the error branch of
`analyze_table_for_incremental_loading` fills the placeholder values. -/
structure TableAnalysis where
  tableName : String
  loadingStrategy : String
  confidence : String
  rowCount : Nat
  timestampColumns : List TsCol
  primaryKeys : List PkInfo
  autoIncrementColumns : List String
  recommendedWatermark : Option String
  incrementalScore : Option Int
  reason : Option String
deriving Repr, DecidableEq

/-- `_analyze_columns_for_incremental` followed by the strategy scorer. -/
def analyzeColumnsForIncremental (tableName : String) (schema : TableSchema) :
    TableAnalysis :=
  let collected := collectColumnInfo schema.columns
  let decision := determineLoadingStrategy tableName collected.1 collected.2.1 collected.2.2
  { tableName := tableName
    loadingStrategy := decision.loadingStrategy
    confidence := decision.confidence
    rowCount := schema.rowCount
    timestampColumns := collected.1
    primaryKeys := collected.2.1
    autoIncrementColumns := collected.2.2
    recommendedWatermark := decision.recommendedWatermark
    incrementalScore := some decision.incrementalScore
    reason := none }

/-- Shallow embedding of `analyze_table_for_incremental_loading` (lines
51-123 of `quick_database_documenter.py`). The catalog is an oracle; any
failure of the metadata queries is the `Except.error` case. The source's
`except` branch returns the placeholder dictionary embedded below instead
of propagating the error. -/
def analyzeTableForIncrementalLoading
    (lookupSchema : String → Except String TableSchema) (tableName : String) :
    TableAnalysis :=
  match lookupSchema tableName with
  | .error e =>
    { tableName := tableName
      loadingStrategy := "ERROR"
      confidence := "LOW"
      rowCount := 0
      timestampColumns := []
      primaryKeys := []
      autoIncrementColumns := []
      recommendedWatermark := none
      incrementalScore := none
      reason := some ("Analysis failed: " ++ e) }
  | .ok schema => analyzeColumnsForIncremental tableName schema

/-! ### Watermark store and incremental extraction
(`legacy_incremental_batch/extractors/incremental_extractor.py`) -/

/-- One value of the `watermarks.json` mapping, as written by
`get_incremental_data` (lines 205-213). -/
structure WatermarkEntry where
  lastTimestamp : Option Int
  lastExtraction : Nat
  timestampColumn : Option String
  extractionType : String
deriving Repr, DecidableEq

/-- The in-memory `self.watermarks` dictionary. -/
abbrev WatermarkStore := List (String × WatermarkEntry)

/-- Python `self.watermarks.get(tableName)`. -/
def storeGet (s : WatermarkStore) (t : String) : Option WatermarkEntry :=
  (s.find? (fun p => p.1 == t)).map (fun p => p.2)

/-- Python `self.watermarks[tableName] = entry` (create or overwrite). -/
def storeSet : WatermarkStore → String → WatermarkEntry → WatermarkStore
  | [], t, e => [(t, e)]
  | p :: rest, t, e =>
    if p.1 == t then (t, e) :: rest else p :: storeSet rest t e

/-- `self.watermarks.get(table_name, {}).get('last_timestamp')`. -/
def storedLastTimestamp (s : WatermarkStore) (t : String) : Option Int :=
  (storeGet s t).bind (fun e => e.lastTimestamp)

/-- The watermark update performed at lines 205-213 of
`get_incremental_data`: unconditionally overwrite the table's entry with
the new maximum timestamp. No comparison against the previous value is
made and no regression error exists in the source. -/
def updateWatermarkEntry (s : WatermarkStore) (tableName : String)
    (maxTimestamp : Int) (now : Nat) (timestampCol : String)
    (isIncremental : Bool) : WatermarkStore :=
  storeSet s tableName
    ⟨some maxTimestamp, now, some timestampCol,
     if isIncremental then "incremental" else "full"⟩

/-- A source row: the value each column holds, timestamps ordered as
integers. -/
abbrev Row := String → Int

/-- A source table: its schema columns (the columns of a `SELECT *`
result) and its rows. -/
structure SourceTable where
  cols : List String
  rows : List Row

/-- The slice of `analyze_table_structure` output that
`get_incremental_data` reads. -/
structure StructAnalysis where
  bestTimestampColumn : Option String
  totalRows : Nat
deriving Repr, DecidableEq

/-- `ORDER BY c` — insertion into an ascending-sorted list. -/
def insertByKey (key : Row → Int) (r : Row) : List Row → List Row
  | [] => [r]
  | x :: xs => if key r ≤ key x then r :: x :: xs else x :: insertByKey key r xs

/-- Ascending sort of the extracted rows by the watermark column. -/
def sortByKey (key : Row → Int) : List Row → List Row
  | [] => []
  | x :: xs => insertByKey key x (sortByKey key xs)

/-- SQL `LIMIT n` (absent when the caller passed no limit). -/
def applyLimit (limit : Option Nat) (l : List Row) : List Row :=
  match limit with
  | none => l
  | some n => l.take n

/-- `max` of the watermark column over a nonempty extracted frame
(`df[timestamp_col].max()`). -/
def colMaxFrom (c : String) (r0 : Row) (rs : List Row) : Int :=
  rs.foldl (fun m r => max m (r c)) (r0 c)

/-- Result of `get_incremental_data`: the extracted frame, its columns,
the extraction mode, and the watermark store after the in-place update. -/
structure ExtractResult where
  df : List Row
  dfCols : List String
  isIncremental : Bool
  store : WatermarkStore

/-- Shallow embedding of `get_incremental_data` (lines 160-217 of
`incremental_extractor.py`). Full scan when there is no usable timestamp
column or no stored `last_timestamp`; otherwise the incremental query
`WHERE c > last_watermark ORDER BY c` — built from the currently selected
column `c` and the stored value, with no check that the stored entry's
`timestamp_column` matches `c`. The watermark entry is overwritten here,
before any staging happens. -/
def getIncrementalData (tbl : SourceTable) (tableName : String)
    (analysis : StructAnalysis) (limit : Option Nat)
    (store : WatermarkStore) (now : Nat) : ExtractResult :=
  let timestampCol := analysis.bestTimestampColumn
  let lastWatermark := storedLastTimestamp store tableName
  let extracted : List Row × Bool :=
    match timestampCol, lastWatermark with
    | none, _ => (applyLimit limit tbl.rows, false)
    | some _, none => (applyLimit limit tbl.rows, false)
    | some c, some w =>
      (applyLimit limit
        (sortByKey (fun r => r c) (tbl.rows.filter (fun r => decide (w < r c)))),
       true)
  let df := extracted.1
  let isIncremental := extracted.2
  let store' :=
    match timestampCol, df with
    | some c, r0 :: rs =>
      if tbl.cols.contains c then
        updateWatermarkEntry store tableName (colMaxFrom c r0 rs) now c isIncremental
      else store
    | _, _ => store
  ⟨df, tbl.cols, isIncremental, store'⟩

/-- Result of one `extract_table_incremental` call. -/
structure TableRunResult where
  success : Bool
  store : WatermarkStore
  isIncremental : Bool
  savedLocal : Bool
  stagedToGcs : Bool

/-- Shallow embedding of `extract_table_incremental` (lines 307-354 of
`incremental_extractor.py`): analyze, extract (which already updates the
watermark), save locally, upload to GCS, write metadata. `uploadOk` models
whether the GCS write raises inside `upload_to_gcs`; that method catches
its own exception and returns `None`, so the run still returns success and
the already-updated watermark store is kept. -/
def extractTableIncremental (tbl : SourceTable) (tableName : String)
    (analysis : StructAnalysis) (limit : Option Nat) (store : WatermarkStore)
    (now : Nat) (gcsAvailable uploadOk : Bool) : TableRunResult :=
  let r := getIncrementalData tbl tableName analysis limit store now
  if r.df.isEmpty then
    ⟨true, r.store, r.isIncremental, false, false⟩
  else
    let staged := gcsAvailable && uploadOk
    ⟨true, r.store, r.isIncremental, true, staged⟩

/-! ### Batch extraction (`batch_extractor.py`) -/

/-- One entry produced by `categorize_tables`. -/
structure TableInfo where
  name : String
  rows : Nat
  timestampColumns : List String
deriving Repr, DecidableEq

/-- The hardcoded large-table row threshold in `extract_table_safe`
(`table_info['rows'] > 100000`). -/
def largeTableThreshold : Nat := 100000

/-- Result of `extract_table_safe`: mode label, the row limit it passed
down, and the nested run result. -/
structure SafeResult where
  extractionType : String
  limitUsed : Option Nat
  run : TableRunResult

/-- Shallow embedding of `extract_table_safe` (lines 164-204 of
`batch_extractor.py`): the incremental branch passes no limit, the full
branch passes the configured `large_table_limit` only when the table's
row count exceeds 100000. -/
def extractTableSafe (tbl : SourceTable) (info : TableInfo)
    (extractionType : String) (largeTableLimit : Nat)
    (analysis : StructAnalysis) (store : WatermarkStore) (now : Nat)
    (gcsAvailable uploadOk : Bool) : SafeResult :=
  if extractionType == "incremental"
      || (extractionType == "auto" && !info.timestampColumns.isEmpty) then
    ⟨"incremental", none,
     extractTableIncremental tbl info.name analysis none store now gcsAvailable uploadOk⟩
  else
    let limit : Option Nat :=
      if info.rows > largeTableThreshold then some largeTableLimit else none
    ⟨"full", limit,
     extractTableIncremental tbl info.name analysis limit store now gcsAvailable uploadOk⟩

/-! ### Watermark persistence (`save_watermarks`, lines 142-158) -/

/-- State of the `watermarks.json` file on disk. -/
inductive WatermarkFile
  | absent
  | content (store : WatermarkStore)
  | truncated
deriving DecidableEq

/-- Crash point while persisting: `open(file, 'w')` truncates the file in
place before `json.dump` writes the new content. -/
inductive CrashPoint
  | noCrash
  | afterOpen
deriving Repr, DecidableEq

/-- Shallow embedding of `save_watermarks`: a plain truncating in-place
write (`open(watermark_file, 'w')` then `json.dump`), with no temporary
file and no rename. A crash after the truncating open loses the previous
file content. -/
def saveWatermarksDirect (_prev : WatermarkFile) (store : WatermarkStore)
    (crash : CrashPoint) : WatermarkFile :=
  match crash with
  | .afterOpen => .truncated
  | .noCrash => .content store

/-- Modelled from the spec: the atomic `persist()` of spec §4.2
(write-to-temp-then-rename), absent from the source. A crash mid-write
leaves the previously persisted file intact. -/
def saveWatermarksAtomic (prev : WatermarkFile) (store : WatermarkStore)
    (crash : CrashPoint) : WatermarkFile :=
  match crash with
  | .afterOpen => prev
  | .noCrash => .content store

/-! ### Load-Strategy Applier (`dev_environment/bigquery/main.py`) -/

/-- A destination / staged row for the merge strategy: the primary key and
the remaining payload. -/
structure MRow where
  pk : Nat
  data : Int
deriving Repr, DecidableEq

/-- The `WHEN MATCHED THEN UPDATE SET * EXCEPT(pk)` clause: a destination
row whose key matches a staged row takes every staged column except the
key; otherwise it is left unchanged. -/
def overwriteRow (staged : List MRow) (d : MRow) : MRow :=
  match staged.find? (fun s => s.pk == d.pk) with
  | some s => ⟨d.pk, s.data⟩
  | none => d

/-- Shallow embedding of the MERGE statement issued by
`apply_incremental_merge` (lines 531-567): rows of the destination whose
primary key matches a staged row are updated with every staged column
except the key (`UPDATE SET * EXCEPT(pk)`); staged rows matching no
destination row are inserted (`WHEN NOT MATCHED THEN INSERT ROW`). -/
def mergeRows (dest staged : List MRow) : List MRow :=
  dest.map (overwriteRow staged)
  ++ staged.filter (fun s => !(dest.any (fun d => d.pk == s.pk)))

/-- A staged row for the replace-partition strategy: the `_load_day`
column (dropped on insert) and the remaining payload. -/
structure SRow where
  loadDay : Nat
  data : Int
deriving Repr, DecidableEq

/-- A destination row of a partitioned table: partition field value and
payload. -/
structure PRow where
  part : Nat
  data : Int
deriving Repr, DecidableEq

/-- Shallow embedding of `apply_replace_partition` (lines 569-609): delete
every destination row of the load day's partition, then insert all staged
rows with the partition field set to the load day
(`SELECT S.* EXCEPT(_load_day), DATE(load_day)`). -/
def replacePartitionRows (dest : List PRow) (staged : List SRow)
    (loadDay : Nat) : List PRow :=
  dest.filter (fun r => !(r.part == loadDay))
  ++ staged.map (fun s => ⟨loadDay, s.data⟩)

/-! ### Advanced ingestion run (`run_advanced_ingestion`, lines 650-711) -/

/-- Per-table outcome recorded in the run's `results` mapping. -/
inductive TableOutcome
  | ok (strategyType : String) (affectedRows : Nat) (filesProcessed : Nat)
  | err (msg : String)
deriving Repr, DecidableEq

/-- The valid strategy names dispatched by `run_advanced_ingestion`. -/
def knownStrategyTypes : List String :=
  ["incremental_merge", "replace_partition", "upsert_scd1"]

/-- The body of the per-table `try` block of `run_advanced_ingestion`:
strategy lookup, GCS listing, staging load, strategy dispatch. External
calls are oracles; an `Except.error` models the exception the source
catches at the per-table boundary. -/
def processOneTable (strategies : String → Option String)
    (listUris : String → List String)
    (stageLoad : String → Except String Unit)
    (applyStrategy : String → String → Except String Nat)
    (t : String) : TableOutcome :=
  match strategies t with
  | none => .err "No strategy defined"
  | some strategyType =>
    let uris := listUris t
    if uris.isEmpty then .err "No files found"
    else
      match stageLoad t with
      | .error e => .err e
      | .ok _ =>
        if knownStrategyTypes.contains strategyType then
          match applyStrategy strategyType t with
          | .ok n => .ok strategyType n uris.length
          | .error e => .err e
        else .err ("Unknown strategy: " ++ strategyType)

/-- Shallow embedding of the loop of `run_advanced_ingestion`: every table
in the list is attempted; each failure is caught at the per-table boundary
and recorded in the results mapping, never terminating the processing of
the other tables. -/
def runAdvancedIngestion (strategies : String → Option String)
    (listUris : String → List String)
    (stageLoad : String → Except String Unit)
    (applyStrategy : String → String → Except String Nat)
    (tables : List String) : List (String × TableOutcome) :=
  tables.map (fun t => (t, processOneTable strategies listUris stageLoad applyStrategy t))

/-- Lookup in the run's results mapping. -/
def resultsGet (results : List (String × TableOutcome)) (t : String) :
    Option TableOutcome :=
  (results.find? (fun p => p.1 == t)).map (fun p => p.2)

/-! ## Theorems -/

/-! ### Scorer refinement lemmas -/

theorem timestampStep_eq (score : Int) (ts : List TsCol) :
    timestampStep score ts =
      (score + (if ts.isEmpty then 0 else 50) + (specSelectWatermark ts).2,
       (specSelectWatermark ts).1) := by
  unfold timestampStep specSelectWatermark
  split
  · simp
  · split <;> [skip; split <;> [skip; split]] <;> simp

theorem autoIncrementStep_eq (score : Int) (autos : List String) :
    autoIncrementStep score autos = score + (if autos.isEmpty then 0 else 25) := by
  unfold autoIncrementStep
  split <;> omega

theorem primaryKeyStep_eq (score : Int) (pks : List PkInfo) :
    primaryKeyStep score pks =
      score + (if pks.length == 1 then 15 else if pks.length > 1 then 5 else -20) := by
  unfold primaryKeyStep
  split_ifs <;> omega

theorem tableNameStep_eq (score : Int) (tableName : String) :
    tableNameStep score tableName =
      score + (if matchesAny (lowerStr tableName) configKeywords then -15 else 0)
        + (if matchesAny (lowerStr tableName) historicalKeywords then 20 else 0)
        + (if matchesAny (lowerStr tableName) transactionKeywords then 15 else 0) := by
  unfold tableNameStep
  dsimp only
  split_ifs <;> omega

theorem finalizeStrategy_eq (score : Int) (wm : Option String) :
    finalizeStrategy score wm =
      ⟨specStrategyOfScore score, specConfidenceOfScore score, score, wm⟩ := by
  unfold finalizeStrategy specStrategyOfScore specConfidenceOfScore
  split_ifs <;> first | rfl | (exfalso; omega)

/-- C1: for every TableProfile (timestamp columns, primary-key columns,
auto-increment columns) and table name, `_determine_loading_strategy`
computes the (strategy, confidenceScore, watermarkColumn) triple exactly
as the additive point system of spec §4.3: start at 0; +50 for a
timestamp column; +30 / +20 / +10 for the modification / creation / first
timestamp watermark selection; +25 for an auto-increment column; +15 / +5
/ -20 for the primary-key shape; -15 / +20 / +15 for the configuration /
historical / transactional name patterns; thresholds 70 / 40 / 20 for the
strategy, confidence HIGH for score ≥ 70 or the full-replace branch and
MEDIUM otherwise. -/
theorem c1_scorer_matches_spec (tableName : String) (ts : List TsCol)
    (pks : List PkInfo) (autos : List String) :
    determineLoadingStrategy tableName ts pks autos = specDecision tableName ts pks autos := by
  unfold determineLoadingStrategy specDecision specScore
  rw [timestampStep_eq]
  dsimp only
  rw [autoIncrementStep_eq, primaryKeyStep_eq, tableNameStep_eq, finalizeStrategy_eq]
  congr 1 <;> ring_nf

/-! ### Watermark store lemmas -/

theorem storeGet_storeSet_self (s : WatermarkStore) (t : String) (e : WatermarkEntry) :
    storeGet (storeSet s t e) t = some e := by
  induction s with
  | nil => simp [storeSet, storeGet]
  | cons p rest ih =>
    unfold storeSet
    by_cases h : p.1 == t
    · rw [if_pos h]
      simp [storeGet]
    · rw [if_neg h]
      unfold storeGet
      rw [List.find?_cons_of_neg]
      · exact ih
      · exact h

theorem mem_insertByKey {key : Row → Int} {x r : Row} {l : List Row}
    (h : x ∈ insertByKey key r l) : x = r ∨ x ∈ l := by
  induction l with
  | nil =>
    unfold insertByKey at h
    exact Or.inl (List.mem_singleton.mp h)
  | cons y ys ih =>
    unfold insertByKey at h
    by_cases hk : key r ≤ key y
    · rw [if_pos hk] at h
      rcases List.mem_cons.mp h with h1 | h1
      · exact Or.inl h1
      · exact Or.inr h1
    · rw [if_neg hk] at h
      rcases List.mem_cons.mp h with h1 | h1
      · exact Or.inr (List.mem_cons.mpr (Or.inl h1))
      · rcases ih h1 with h2 | h2
        · exact Or.inl h2
        · exact Or.inr (List.mem_cons.mpr (Or.inr h2))

theorem mem_sortByKey {key : Row → Int} {x : Row} {l : List Row}
    (h : x ∈ sortByKey key l) : x ∈ l := by
  induction l with
  | nil => simp [sortByKey] at h
  | cons y ys ih =>
    unfold sortByKey at h
    rcases mem_insertByKey h with h' | h'
    · simp [h']
    · simp [ih h']

theorem mem_applyLimit {limit : Option Nat} {x : Row} {l : List Row}
    (h : x ∈ applyLimit limit l) : x ∈ l := by
  cases limit with
  | none => exact h
  | some n => exact List.take_subset n l h

theorem le_colMaxFrom (c : String) (r0 : Row) (rs : List Row) :
    r0 c ≤ colMaxFrom c r0 rs := by
  unfold colMaxFrom
  have key : ∀ (rs : List Row) (init : Int),
      init ≤ rs.foldl (fun m r => max m (r c)) init := by
    intro rs
    induction rs with
    | nil => intro init; simp
    | cons r rest ih =>
      intro init
      calc init ≤ max init (r c) := le_max_left _ _
        _ ≤ rest.foldl (fun m r => max m (r c)) (max init (r c)) := ih _
  exact key rs (r0 c)

/-- C2 counterexample: the watermark update of `get_incremental_data` has
no regression check — handing it a value (3) smaller than the stored one
(5) silently stores the regressed value; no `WatermarkRegressionError`
exists anywhere in the source. -/
theorem c2_update_accepts_regression :
    storedLastTimestamp
        (updateWatermarkEntry [("pie_fac", ⟨some 5, 0, some "updated_at", "incremental"⟩)]
          "pie_fac" 3 1 "updated_at" true) "pie_fac" = some 3
    ∧ (3 : Int) < 5 := by
  exact ⟨rfl, by norm_num⟩

/-- C2 (amended): across runs of `get_incremental_data` the stored
watermark `last_timestamp` never decreases — because the incremental
predicate only extracts rows strictly above it — but not because updates
are guarded: the update itself accepts any value unconditionally and no
`WatermarkRegressionError` exists in the code. -/
theorem c2_watermark_monotone (tbl : SourceTable) (tableName : String)
    (analysis : StructAnalysis) (limit : Option Nat) (store : WatermarkStore)
    (now : Nat) (w : Int)
    (hw : storedLastTimestamp store tableName = some w) :
    ∃ w', storedLastTimestamp
        (getIncrementalData tbl tableName analysis limit store now).store tableName = some w'
      ∧ w ≤ w' := by
  unfold getIncrementalData
  cases hcol : analysis.bestTimestampColumn with
  | none =>
    refine ⟨w, ?_, le_refl w⟩
    simp only [hcol, hw]
  | some c =>
    simp only [hcol, hw]
    set filtered := tbl.rows.filter (fun r => decide (w < r c)) with hfiltered
    set df := applyLimit limit (sortByKey (fun r => r c) filtered) with hdf
    cases hdfc : df with
    | nil => exact ⟨w, by simp [hdfc, hw], le_refl w⟩
    | cons r0 rs =>
      by_cases hcc : c ∈ tbl.cols
      · refine ⟨colMaxFrom c r0 rs, ?_, ?_⟩
        · simp [hdfc, hcc, updateWatermarkEntry, storedLastTimestamp, storeGet_storeSet_self]
        · have hr0df : r0 ∈ df := by rw [hdfc]; exact List.mem_cons_self r0 rs
          rw [hdf] at hr0df
          have hr0 : r0 ∈ filtered := mem_sortByKey (mem_applyLimit hr0df)
          rw [hfiltered] at hr0
          have hgt : w < r0 c := by
            have := List.of_mem_filter hr0
            simpa using this
          exact le_of_lt (lt_of_lt_of_le hgt (le_colMaxFrom c r0 rs))
      · refine ⟨w, ?_, le_refl w⟩
        simp only [hdfc]
        simp [hcc, hw]

/-- Witness for `c2_watermark_monotone` at a concrete table and store. -/
theorem c2_watermark_monotone_witness :
    ∃ w', storedLastTimestamp
        (getIncrementalData ⟨["updated_at"], [fun _ => 9]⟩ "pie_fac" ⟨some "updated_at", 1⟩ none
          [("pie_fac", ⟨some 5, 0, some "updated_at", "incremental"⟩)] 7).store "pie_fac" = some w'
      ∧ (5 : Int) ≤ w' :=
  c2_watermark_monotone ⟨["updated_at"], [fun _ => 9]⟩ "pie_fac" ⟨some "updated_at", 1⟩ none
    [("pie_fac", ⟨some 5, 0, some "updated_at", "incremental"⟩)] 7 5 rfl

/-! ### Extraction planner lemmas -/

theorem getIncrementalData_full_of_no_watermark (tbl : SourceTable) (tableName : String)
    (analysis : StructAnalysis) (limit : Option Nat) (store : WatermarkStore) (now : Nat)
    (hnone : storedLastTimestamp store tableName = none) :
    (getIncrementalData tbl tableName analysis limit store now).isIncremental = false := by
  unfold getIncrementalData
  cases hcol : analysis.bestTimestampColumn <;> simp [hcol, hnone]

theorem extractTableIncremental_isIncremental (tbl : SourceTable) (tableName : String)
    (analysis : StructAnalysis) (limit : Option Nat) (store : WatermarkStore) (now : Nat)
    (g u : Bool) :
    (extractTableIncremental tbl tableName analysis limit store now g u).isIncremental =
      (getIncrementalData tbl tableName analysis limit store now).isIncremental := by
  unfold extractTableIncremental
  dsimp only
  split <;> rfl

/-- C3: a table with no existing watermark entry is always extracted in
full mode regardless of the classifier's output, and `extract_table_safe`
passes a row limit down only when the table's row count exceeds the
100000-row large-table threshold. -/
theorem c3_no_watermark_full_mode (tbl : SourceTable) (info : TableInfo)
    (extractionType : String) (largeTableLimit : Nat) (analysis : StructAnalysis)
    (store : WatermarkStore) (now : Nat) (g u : Bool)
    (hnone : storeGet store info.name = none) :
    (extractTableSafe tbl info extractionType largeTableLimit analysis store now g u).run.isIncremental = false
    ∧ ∀ l, (extractTableSafe tbl info extractionType largeTableLimit analysis store now g u).limitUsed = some l →
        info.rows > largeTableThreshold := by
  have hlast : storedLastTimestamp store info.name = none := by
    unfold storedLastTimestamp
    rw [hnone]
    rfl
  unfold extractTableSafe
  split
  · refine ⟨?_, ?_⟩
    · rw [extractTableIncremental_isIncremental]
      exact getIncrementalData_full_of_no_watermark _ _ _ _ _ _ hlast
    · intro l hl
      simp at hl
  · refine ⟨?_, ?_⟩
    · rw [extractTableIncremental_isIncremental]
      exact getIncrementalData_full_of_no_watermark _ _ _ _ _ _ hlast
    · intro l hl
      simp only at hl
      by_cases hr : info.rows > largeTableThreshold
      · exact hr
      · rw [if_neg hr] at hl
        exact absurd hl (by simp)

/-- Witness for `c3_no_watermark_full_mode`: a 200000-row table with no
stored watermark, routed through the full branch. -/
theorem c3_no_watermark_full_mode_witness :
    (extractTableSafe ⟨["updated_at"], [fun _ => 9]⟩ ⟨"pie_alb", 200000, ["updated_at"]⟩
        "full" 50000 ⟨some "updated_at", 200000⟩ [] 0 true true).run.isIncremental = false
    ∧ ∀ l, (extractTableSafe ⟨["updated_at"], [fun _ => 9]⟩ ⟨"pie_alb", 200000, ["updated_at"]⟩
        "full" 50000 ⟨some "updated_at", 200000⟩ [] 0 true true).limitUsed = some l →
        (⟨"pie_alb", 200000, ["updated_at"]⟩ : TableInfo).rows > largeTableThreshold :=
  c3_no_watermark_full_mode ⟨["updated_at"], [fun _ => 9]⟩ ⟨"pie_alb", 200000, ["updated_at"]⟩
    "full" 50000 ⟨some "updated_at", 200000⟩ [] 0 true true rfl

/-- C4 counterexample: the stored watermark entry records
`timestamp_column = "created_at"` while the planner currently selects
`"updated_at"`, yet `get_incremental_data` still produces an incremental
extraction — the recorded column is never compared to the selected one
and the stale watermark value bounds a predicate on a different column. -/
theorem c4_column_mismatch_still_incremental :
    (storeGet [("pie_ped", ⟨some 10, 0, some "created_at", "full"⟩)] "pie_ped").map
        (fun e => e.timestampColumn) = some (some "created_at")
    ∧ ("updated_at" : String) ≠ "created_at"
    ∧ (getIncrementalData ⟨["updated_at"], [fun _ => 11]⟩ "pie_ped" ⟨some "updated_at", 1⟩ none
        [("pie_ped", ⟨some 10, 0, some "created_at", "full"⟩)] 2).isIncremental = true := by
  refine ⟨rfl, by decide, rfl⟩

/-- C4 (amended): whenever a `last_timestamp` value is stored for the
table and the planner selects any timestamp column `c`, the extraction is
incremental with predicate `c > storedValue` — the entry's recorded
`timestamp_column` is ignored, so a watermark recorded for a different
column is reused rather than discarded. -/
theorem c4_planner_ignores_recorded_column (tbl : SourceTable) (tableName : String)
    (analysis : StructAnalysis) (limit : Option Nat) (store : WatermarkStore)
    (now : Nat) (c : String) (w : Int)
    (hc : analysis.bestTimestampColumn = some c)
    (hw : storedLastTimestamp store tableName = some w) :
    (getIncrementalData tbl tableName analysis limit store now).isIncremental = true
    ∧ (getIncrementalData tbl tableName analysis limit store now).df =
        applyLimit limit (sortByKey (fun r => r c)
          (tbl.rows.filter (fun r => decide (w < r c)))) := by
  unfold getIncrementalData
  simp only [hc, hw]
  exact ⟨trivial, trivial⟩

/-- Witness for `c4_planner_ignores_recorded_column` at a concrete store
whose recorded column differs from the selected one. -/
theorem c4_planner_ignores_recorded_column_witness :
    (getIncrementalData ⟨["updated_at"], [fun _ => 11]⟩ "pie_ped" ⟨some "updated_at", 1⟩ none
        [("pie_ped", ⟨some 10, 0, some "created_at", "full"⟩)] 2).isIncremental = true
    ∧ (getIncrementalData ⟨["updated_at"], [fun _ => 11]⟩ "pie_ped" ⟨some "updated_at", 1⟩ none
        [("pie_ped", ⟨some 10, 0, some "created_at", "full"⟩)] 2).df =
        applyLimit none (sortByKey (fun r => r "updated_at")
          ((⟨["updated_at"], [fun _ => 11]⟩ : SourceTable).rows.filter
            (fun r => decide ((10 : Int) < r "updated_at")))) :=
  c4_planner_ignores_recorded_column ⟨["updated_at"], [fun _ => 11]⟩ "pie_ped"
    ⟨some "updated_at", 1⟩ none [("pie_ped", ⟨some 10, 0, some "created_at", "full"⟩)] 2
    "updated_at" 10 rfl rfl

/-- C5 counterexample: a run whose GCS upload fails (`stagedToGcs =
false`) still leaves the watermark store updated to the extracted maximum
— the update happened inside `get_incremental_data`, before any staging,
and `upload_to_gcs` swallows its own exception. -/
theorem c5_staging_failure_still_updates_watermark :
    (extractTableIncremental ⟨["updated_at"], [fun _ => 9]⟩ "pie_mov" ⟨some "updated_at", 1⟩
        none [] 0 true false).stagedToGcs = false
    ∧ storedLastTimestamp (extractTableIncremental ⟨["updated_at"], [fun _ => 9]⟩ "pie_mov"
        ⟨some "updated_at", 1⟩ none [] 0 true false).store "pie_mov" = some 9
    ∧ storedLastTimestamp [] "pie_mov" = none := by
  refine ⟨rfl, rfl, rfl⟩

/-- C5 (amended): the watermark store produced by
`extract_table_incremental` is exactly the one produced by the extraction
step itself, for every staging outcome — the update precedes staging and
is not conditioned on the artifact being durably written. -/
theorem c5_watermark_updated_before_staging (tbl : SourceTable) (tableName : String)
    (analysis : StructAnalysis) (limit : Option Nat) (store : WatermarkStore)
    (now : Nat) (g u : Bool) :
    (extractTableIncremental tbl tableName analysis limit store now g u).store =
      (getIncrementalData tbl tableName analysis limit store now).store := by
  unfold extractTableIncremental
  dsimp only
  split <;> rfl

/-! ### Load-strategy idempotence lemmas -/

theorem map_fix_eq_self {α} {f : α → α} {l : List α} (h : ∀ x ∈ l, f x = x) :
    l.map f = l := by
  induction l with
  | nil => rfl
  | cons a t ih =>
    simp only [List.map_cons, h a (List.mem_cons_self a t)]
    rw [ih (fun x hx => h x (List.mem_cons_of_mem a hx))]

theorem filter_none_eq_nil {α} {p : α → Bool} {l : List α} (h : ∀ x ∈ l, p x = false) :
    l.filter p = [] := by
  induction l with
  | nil => rfl
  | cons a t ih =>
    have ha := h a (List.mem_cons_self a t)
    simp [List.filter_cons, ha, ih (fun x hx => h x (List.mem_cons_of_mem a hx))]

theorem filter_idem {α} (p : α → Bool) (l : List α) :
    (l.filter p).filter p = l.filter p := by
  induction l with
  | nil => rfl
  | cons a t ih =>
    by_cases h : p a = true
    · simp [List.filter_cons, h, ih]
    · simp [List.filter_cons, h, ih]

theorem find?_pk_self {S : List MRow} (hnd : (S.map MRow.pk).Nodup) {s : MRow}
    (hs : s ∈ S) : S.find? (fun x => x.pk == s.pk) = some s := by
  induction S with
  | nil => cases hs
  | cons a rest ih =>
    rw [List.map_cons, List.nodup_cons] at hnd
    by_cases hpk : (a.pk == s.pk) = true
    · have has : a = s := by
        rcases List.mem_cons.mp hs with h | h
        · exact h.symm
        · exfalso
          have hmem : s.pk ∈ rest.map MRow.pk := List.mem_map_of_mem MRow.pk h
          have hae : a.pk = s.pk := by simpa using hpk
          exact hnd.1 (hae ▸ hmem)
      unfold List.find?
      rw [hpk, has]
    · have hsr : s ∈ rest := by
        rcases List.mem_cons.mp hs with h | h
        · exact absurd (by simp [h]) hpk
        · exact h
      unfold List.find?
      rw [Bool.not_eq_true] at hpk
      rw [hpk]
      exact ih hnd.2 hsr

theorem overwriteRow_pk (S : List MRow) (d : MRow) : (overwriteRow S d).pk = d.pk := by
  unfold overwriteRow
  cases S.find? (fun s => s.pk == d.pk) <;> rfl

theorem overwriteRow_idem (S : List MRow) (d : MRow) :
    overwriteRow S (overwriteRow S d) = overwriteRow S d := by
  unfold overwriteRow
  cases hf : S.find? (fun s => s.pk == d.pk) with
  | none => simp only [hf]
  | some s => simp only [hf]

theorem overwriteRow_of_mem {S : List MRow} (hnd : (S.map MRow.pk).Nodup) {s : MRow}
    (hs : s ∈ S) : overwriteRow S s = s := by
  unfold overwriteRow
  rw [find?_pk_self hnd hs]

/-- C6: applying the incremental-merge strategy or the replace-partition
strategy twice with the same staged artifact leaves the destination in
the same state as applying it once. The merge hypothesis that the staged
rows carry pairwise-distinct primary keys reflects the warehouse MERGE
precondition (a target row may match at most one source row). -/
theorem c6_strategies_idempotent (D S : List MRow) (Dp : List PRow) (Sp : List SRow)
    (day : Nat) (hnd : (S.map MRow.pk).Nodup) :
    mergeRows (mergeRows D S) S = mergeRows D S
    ∧ replacePartitionRows (replacePartitionRows Dp Sp day) Sp day =
        replacePartitionRows Dp Sp day := by
  constructor
  · conv_lhs => rw [mergeRows, mergeRows]
    conv_rhs => rw [mergeRows]
    have hfix : ∀ x ∈ D.map (overwriteRow S)
        ++ S.filter (fun s => !(D.any (fun d => d.pk == s.pk))),
        overwriteRow S x = x := by
      intro x hx
      rcases List.mem_append.mp hx with hx | hx
      · rcases List.mem_map.mp hx with ⟨d, _, hde⟩
        rw [← hde]
        exact overwriteRow_idem S d
      · exact overwriteRow_of_mem hnd (List.mem_of_mem_filter hx)
    have hany : ∀ s ∈ S,
        (D.map (overwriteRow S)
          ++ S.filter (fun s => !(D.any (fun d => d.pk == s.pk)))).any
          (fun d => d.pk == s.pk) = true := by
      intro s hsS
      by_cases hD : D.any (fun d => d.pk == s.pk) = true
      · rcases List.any_eq_true.mp hD with ⟨d, hd, hde⟩
        refine List.any_eq_true.mpr ⟨overwriteRow S d, ?_, ?_⟩
        · exact List.mem_append.mpr (Or.inl (List.mem_map_of_mem (overwriteRow S) hd))
        · rw [overwriteRow_pk]
          exact hde
      · have hsins : s ∈ S.filter (fun s => !(D.any (fun d => d.pk == s.pk))) := by
          refine List.mem_filter.mpr ⟨hsS, ?_⟩
          simp only [Bool.not_eq_true] at hD
          simp [hD]
        exact List.any_eq_true.mpr ⟨s, List.mem_append.mpr (Or.inr hsins), by simp⟩
    rw [map_fix_eq_self hfix]
    have hnil : S.filter (fun s => !((D.map (overwriteRow S)
        ++ S.filter (fun s => !(D.any (fun d => d.pk == s.pk)))).any
          (fun d => d.pk == s.pk))) = [] :=
      filter_none_eq_nil (fun s hs => by rw [hany s hs]; rfl)
    rw [hnil]
    simp
  · conv_lhs => rw [replacePartitionRows, replacePartitionRows]
    conv_rhs => rw [replacePartitionRows]
    rw [List.filter_append]
    rw [filter_idem]
    rw [filter_none_eq_nil (l := Sp.map (fun s => (⟨day, s.data⟩ : PRow)))
      (fun x hx => by
        rcases List.mem_map.mp hx with ⟨s, _, hse⟩
        rw [← hse]
        simp)]
    simp

/-- Witness for `c6_strategies_idempotent` on concrete destination and
staged rows. -/
theorem c6_strategies_idempotent_witness :
    mergeRows (mergeRows [⟨1, 10⟩, ⟨3, 30⟩] [⟨1, 100⟩, ⟨2, 200⟩]) [⟨1, 100⟩, ⟨2, 200⟩] =
        mergeRows [⟨1, 10⟩, ⟨3, 30⟩] [⟨1, 100⟩, ⟨2, 200⟩]
    ∧ replacePartitionRows (replacePartitionRows [⟨5, 1⟩, ⟨6, 2⟩] [⟨0, 7⟩] 6) [⟨0, 7⟩] 6 =
        replacePartitionRows [⟨5, 1⟩, ⟨6, 2⟩] [⟨0, 7⟩] 6 :=
  c6_strategies_idempotent [⟨1, 10⟩, ⟨3, 30⟩] [⟨1, 100⟩, ⟨2, 200⟩] [⟨5, 1⟩, ⟨6, 2⟩]
    [⟨0, 7⟩] 6 (by decide)

/-! ### Advanced-ingestion run lemmas -/

theorem resultsGet_runAdvancedIngestion (strategies : String → Option String)
    (uris : String → List String) (stageLoad : String → Except String Unit)
    (applyStrategy : String → String → Except String Nat)
    {tables : List String} {t : String} (h : t ∈ tables) :
    resultsGet (runAdvancedIngestion strategies uris stageLoad applyStrategy tables) t =
      some (processOneTable strategies uris stageLoad applyStrategy t) := by
  induction tables with
  | nil => cases h
  | cons a rest ih =>
    unfold runAdvancedIngestion resultsGet at *
    rw [List.map_cons]
    by_cases ha : (a == t) = true
    · have hat : a = t := by simpa using ha
      rw [List.find?_cons_of_pos]
      · rw [hat]
        simp
      · simpa using ha
    · rw [List.find?_cons_of_neg]
      · have ht : t ∈ rest := by
          rcases List.mem_cons.mp h with h' | h'
          · exact absurd (by simp [h']) ha
          · exact h'
        exact ih ht
      · simpa using ha

/-- C7: when table `k`'s staging load raises and every other table's
steps succeed, `run_advanced_ingestion` still attempts and records a
result for every table, the results mapping marks exactly `k` as failed,
and every sibling table is recorded successful — the per-table `try`
boundary never lets one table's failure terminate the loop. -/
theorem c7_partial_failure_isolation (strategies : String → Option String)
    (uris : String → List String) (stageLoad : String → Except String Unit)
    (applyStrategy : String → String → Except String Nat)
    (tables : List String) (k : String) (stk e : String)
    (hk : k ∈ tables)
    (hkstrat : strategies k = some stk)
    (hkuris : (uris k).isEmpty = false)
    (hkfail : stageLoad k = .error e)
    (hok : ∀ t ∈ tables, t ≠ k → ∃ st n, strategies t = some st
      ∧ knownStrategyTypes.contains st = true
      ∧ (uris t).isEmpty = false
      ∧ stageLoad t = .ok ()
      ∧ applyStrategy st t = .ok n) :
    (runAdvancedIngestion strategies uris stageLoad applyStrategy tables).length = tables.length
    ∧ resultsGet (runAdvancedIngestion strategies uris stageLoad applyStrategy tables) k =
        some (.err e)
    ∧ ∀ t ∈ tables, t ≠ k → ∃ st n,
        resultsGet (runAdvancedIngestion strategies uris stageLoad applyStrategy tables) t =
          some (.ok st n (uris t).length) := by
  refine ⟨?_, ?_, ?_⟩
  · unfold runAdvancedIngestion
    exact List.length_map tables _
  · rw [resultsGet_runAdvancedIngestion strategies uris stageLoad applyStrategy hk]
    unfold processOneTable
    rw [hkstrat]
    simp only [hkuris, hkfail]
    rfl
  · intro t ht hne
    rcases hok t ht hne with ⟨st, n, hst, hknown, huris, hload, happly⟩
    refine ⟨st, n, ?_⟩
    rw [resultsGet_runAdvancedIngestion strategies uris stageLoad applyStrategy ht]
    unfold processOneTable
    rw [hst]
    simp only [huris, hload, hknown]
    simp [happly]

/-- Witness for `c7_partial_failure_isolation`: a three-table run where
the middle table's staging load fails. -/
theorem c7_partial_failure_isolation_witness :
    (runAdvancedIngestion (fun _ => some "incremental_merge") (fun _ => ["u1"])
        (fun t => if t == "pie_alb" then .error "boom" else .ok ()) (fun _ _ => .ok 5)
        ["pie_fac", "pie_alb", "pie_mov"]).length = (["pie_fac", "pie_alb", "pie_mov"] : List String).length
    ∧ resultsGet (runAdvancedIngestion (fun _ => some "incremental_merge") (fun _ => ["u1"])
        (fun t => if t == "pie_alb" then .error "boom" else .ok ()) (fun _ _ => .ok 5)
        ["pie_fac", "pie_alb", "pie_mov"]) "pie_alb" = some (.err "boom")
    ∧ ∀ t ∈ (["pie_fac", "pie_alb", "pie_mov"] : List String), t ≠ "pie_alb" → ∃ st n,
        resultsGet (runAdvancedIngestion (fun _ => some "incremental_merge") (fun _ => ["u1"])
          (fun t => if t == "pie_alb" then .error "boom" else .ok ()) (fun _ _ => .ok 5)
          ["pie_fac", "pie_alb", "pie_mov"]) t = some (.ok st n ((fun (_ : String) => ["u1"]) t).length) :=
  c7_partial_failure_isolation (fun _ => some "incremental_merge") (fun _ => ["u1"])
    (fun t => if t == "pie_alb" then .error "boom" else .ok ()) (fun _ _ => .ok 5)
    ["pie_fac", "pie_alb", "pie_mov"] "pie_alb" "incremental_merge" "boom"
    (by simp) rfl rfl (by simp)
    (fun t ht hne => ⟨"incremental_merge", 5, rfl, by decide, rfl, by simp [hne], rfl⟩)

/-! ### Classifier error handling, persistence, capped-run watermarks -/

/-- C8 counterexample: a failing catalog lookup makes
`analyze_table_for_incremental_loading` return the placeholder profile
(strategy `ERROR`, confidence `LOW`, zero rows, empty column lists) with
the error text tucked into a `reason` field — no error is surfaced to the
caller. -/
theorem c8_lookup_failure_returns_placeholder :
    analyzeTableForIncrementalLoading (fun _ => .error "connection refused") "pie_fac" =
      { tableName := "pie_fac", loadingStrategy := "ERROR", confidence := "LOW",
        rowCount := 0, timestampColumns := [], primaryKeys := [], autoIncrementColumns := [],
        recommendedWatermark := none, incrementalScore := none,
        reason := some "Analysis failed: connection refused" } := rfl

/-- C8 (amended): whenever the schema lookup fails,
`analyze_table_for_incremental_loading` catches the failure and returns
the placeholder profile embedding the error text, instead of raising a
`SchemaLookupError`; no such error type exists in the source. -/
theorem c8_error_branch_returns_placeholder
    (lookupSchema : String → Except String TableSchema) (tableName e : String)
    (h : lookupSchema tableName = .error e) :
    analyzeTableForIncrementalLoading lookupSchema tableName =
      { tableName := tableName, loadingStrategy := "ERROR", confidence := "LOW",
        rowCount := 0, timestampColumns := [], primaryKeys := [], autoIncrementColumns := [],
        recommendedWatermark := none, incrementalScore := none,
        reason := some ("Analysis failed: " ++ e) } := by
  unfold analyzeTableForIncrementalLoading
  rw [h]

/-- Witness for `c8_error_branch_returns_placeholder` at a concrete
failing catalog. -/
theorem c8_error_branch_returns_placeholder_witness :
    analyzeTableForIncrementalLoading (fun _ => .error "catalog down") "pie_mov" =
      { tableName := "pie_mov", loadingStrategy := "ERROR", confidence := "LOW",
        rowCount := 0, timestampColumns := [], primaryKeys := [], autoIncrementColumns := [],
        recommendedWatermark := none, incrementalScore := none,
        reason := some ("Analysis failed: " ++ "catalog down") } :=
  c8_error_branch_returns_placeholder (fun _ => .error "catalog down") "pie_mov"
    "catalog down" rfl

/-- C9 counterexample: `save_watermarks` opens the live file with a
truncating write; a crash right after the open leaves the file truncated,
not the previously persisted store. -/
theorem c9_crash_after_open_truncates :
    saveWatermarksDirect (.content [("pie_fac", ⟨some 5, 0, some "updated_at", "incremental"⟩)])
        [("pie_fac", ⟨some 9, 1, some "updated_at", "incremental"⟩)] .afterOpen = .truncated
    ∧ WatermarkFile.truncated ≠
        .content [("pie_fac", ⟨some 5, 0, some "updated_at", "incremental"⟩)] := by
  exact ⟨rfl, by decide⟩

/-- C9 (amended): `save_watermarks` is a plain in-place truncating write —
a crash after the open loses the previous content, while the atomic
write-to-temp-then-rename persist the spec describes would have kept it. -/
theorem c9_save_watermarks_not_atomic (prev : WatermarkFile) (store : WatermarkStore) :
    saveWatermarksDirect prev store .afterOpen = .truncated
    ∧ saveWatermarksDirect prev store .noCrash = .content store
    ∧ saveWatermarksAtomic prev store .afterOpen = prev :=
  ⟨rfl, rfl, rfl⟩

theorem getIncrementalData_incremental_df (tbl : SourceTable) (tableName : String)
    (analysis : StructAnalysis) (limit : Option Nat) (store : WatermarkStore) (now : Nat)
    (c : String) (w : Int)
    (hc : analysis.bestTimestampColumn = some c)
    (hw : storedLastTimestamp store tableName = some w) :
    (getIncrementalData tbl tableName analysis limit store now).df =
      applyLimit limit (sortByKey (fun r => r c)
        (tbl.rows.filter (fun r => decide (w < r c)))) := by
  unfold getIncrementalData
  simp only [hc, hw]

/-- C10 counterexample: a three-row table capped at two rows records
watermark 8, the maximum of the extracted rows [3, 8]; the beyond-cap
row with timestamp 9 — never extracted by the capped run — satisfies the
next run's strict predicate `updated_at > 8` and is extracted there, so
rows beyond the cap are not permanently excluded. -/
theorem c10_beyond_cap_row_extracted_later :
    (⟨["updated_at"], [fun _ => 3, fun _ => 8, fun _ => 9]⟩ : SourceTable).rows.drop 2
      = [fun _ => (9 : Int)]
    ∧ ((getIncrementalData ⟨["updated_at"], [fun _ => 3, fun _ => 8, fun _ => 9]⟩ "pie_his"
        ⟨some "updated_at", 3⟩ (some 2) [] 0).df.map (fun r => r "updated_at")) = [3, 8]
    ∧ storedLastTimestamp
        (getIncrementalData ⟨["updated_at"], [fun _ => 3, fun _ => 8, fun _ => 9]⟩ "pie_his"
          ⟨some "updated_at", 3⟩ (some 2) [] 0).store "pie_his" = some 8
    ∧ (fun _ => (9 : Int)) ∈
        (getIncrementalData ⟨["updated_at"], [fun _ => 3, fun _ => 8, fun _ => 9]⟩ "pie_his"
          ⟨some "updated_at", 3⟩ none
          (getIncrementalData ⟨["updated_at"], [fun _ => 3, fun _ => 8, fun _ => 9]⟩ "pie_his"
            ⟨some "updated_at", 3⟩ (some 2) [] 0).store 1).df := by
  refine ⟨rfl, rfl, rfl, ?_⟩
  show (fun _ => (9 : Int)) ∈ [(fun _ => (9 : Int) : Row)]
  exact List.mem_singleton.mpr rfl

/-- C10 (amended): a full-mode run capped at `n` rows that extracts at
least one row still records a watermark, set to the maximum timestamp
among only the `n` extracted rows; a row beyond the cap is excluded from
the subsequent incremental extraction bounded by that watermark exactly
when its timestamp does not exceed the recorded maximum (rows beyond the
cap with larger timestamps are picked up by the next incremental run, as
the counterexample shows). -/
theorem c10_capped_full_run_caps_watermark (tbl : SourceTable) (tableName : String)
    (analysis : StructAnalysis) (store : WatermarkStore) (now now2 : Nat) (n : Nat)
    (limit2 : Option Nat) (c : String)
    (hc : analysis.bestTimestampColumn = some c)
    (hnowm : storedLastTimestamp store tableName = none)
    (hcols : c ∈ tbl.cols)
    (hne : tbl.rows.take n ≠ []) :
    (getIncrementalData tbl tableName analysis (some n) store now).isIncremental = false
    ∧ ∃ r0 rs, tbl.rows.take n = r0 :: rs
      ∧ storedLastTimestamp
          (getIncrementalData tbl tableName analysis (some n) store now).store tableName
          = some (colMaxFrom c r0 rs)
      ∧ ∀ r ∈ tbl.rows.drop n, r c ≤ colMaxFrom c r0 rs →
          r ∉ (getIncrementalData tbl tableName analysis limit2
                (getIncrementalData tbl tableName analysis (some n) store now).store now2).df := by
  cases htake : tbl.rows.take n with
  | nil => exact absurd htake hne
  | cons r0 rs =>
    have hrun1 : getIncrementalData tbl tableName analysis (some n) store now =
        ⟨r0 :: rs, tbl.cols, false,
          updateWatermarkEntry store tableName (colMaxFrom c r0 rs) now c false⟩ := by
      unfold getIncrementalData
      simp only [hc, hnowm, applyLimit, htake, hcols]
      simp [hcols]
    have hw1 : storedLastTimestamp
        (getIncrementalData tbl tableName analysis (some n) store now).store tableName
        = some (colMaxFrom c r0 rs) := by
      rw [hrun1]
      unfold storedLastTimestamp updateWatermarkEntry
      rw [storeGet_storeSet_self]
      rfl
    refine ⟨by rw [hrun1], r0, rs, rfl, hw1, ?_⟩
    intro r hr hle hmem
    rw [getIncrementalData_incremental_df tbl tableName analysis limit2
      (getIncrementalData tbl tableName analysis (some n) store now).store now2 c
      (colMaxFrom c r0 rs) hc hw1] at hmem
    have hfl := List.of_mem_filter (mem_sortByKey (mem_applyLimit hmem))
    simp only [decide_eq_true_eq] at hfl
    omega

/-- Witness for `c10_capped_full_run_caps_watermark`: a three-row table
capped at two rows; the third row's timestamp (6) is below the recorded
maximum (8) and is excluded from the follow-up incremental run. -/
theorem c10_capped_full_run_caps_watermark_witness :
    (getIncrementalData ⟨["updated_at"], [fun _ => 3, fun _ => 8, fun _ => 6]⟩ "pie_his"
        ⟨some "updated_at", 3⟩ (some 2) [] 0).isIncremental = false
    ∧ ∃ r0 rs, (⟨["updated_at"], [fun _ => 3, fun _ => 8, fun _ => 6]⟩ : SourceTable).rows.take 2
        = r0 :: rs
      ∧ storedLastTimestamp
          (getIncrementalData ⟨["updated_at"], [fun _ => 3, fun _ => 8, fun _ => 6]⟩ "pie_his"
            ⟨some "updated_at", 3⟩ (some 2) [] 0).store "pie_his"
          = some (colMaxFrom "updated_at" r0 rs)
      ∧ ∀ r ∈ (⟨["updated_at"], [fun _ => 3, fun _ => 8, fun _ => 6]⟩ : SourceTable).rows.drop 2,
          r "updated_at" ≤ colMaxFrom "updated_at" r0 rs →
          r ∉ (getIncrementalData ⟨["updated_at"], [fun _ => 3, fun _ => 8, fun _ => 6]⟩ "pie_his"
                ⟨some "updated_at", 3⟩ none
                (getIncrementalData ⟨["updated_at"], [fun _ => 3, fun _ => 8, fun _ => 6]⟩ "pie_his"
                  ⟨some "updated_at", 3⟩ (some 2) [] 0).store 1).df :=
  c10_capped_full_run_caps_watermark ⟨["updated_at"], [fun _ => 3, fun _ => 8, fun _ => 6]⟩
    "pie_his" ⟨some "updated_at", 3⟩ [] 0 1 2 none "updated_at" rfl rfl (by simp)
    (List.cons_ne_nil _ _)
